import Mathlib

/-!
Verification development for the `azure-vmss-list` Nomad autoscaler target
plugin.  The Go source is shallowly embedded: Go strings are `List Char`,
`int64` is `Int` (with Go's truncating `/` and `%` embedded as `Int.tdiv`
and `Int.tmod`), fallible calls are `Except`, and the external collaborators
(the Azure VMSS API and the Nomad drain hooks) are an explicit environment
of functions.  The `Scale` entry point additionally produces a trace of the
externally visible calls it makes, in program order, so that ordering and
abort properties can be stated.
-/

/-- Go strings, embedded as their character sequence. -/
abbrev Str := List Char

/-- `String.toList` shorthand used to write `Str` literals. -/
def str (s : String) : Str := s.toList

/-- Go `strings.Split(s, sep)` for a one-character separator: splits at every
occurrence; the result always has at least one element (splitting the empty
string yields `[[]]`, i.e. one empty field), exactly as in Go. -/
def splitOnChar (sep : Char) : Str → List Str
  | [] => [[]]
  | c :: rest =>
    let r := splitOnChar sep rest
    if c = sep then [] :: r
    else
      match r with
      | [] => [[c]]
      | h :: t => (c :: h) :: t

/-- Go `strings.LastIndex(s, sep)` for a one-character separator: the index of
the last occurrence, `none` standing for Go's `-1`. -/
def lastIndexOfChar (sep : Char) : Str → Option Nat
  | [] => none
  | c :: rest =>
    match lastIndexOfChar sep rest with
    | some i => some (i + 1)
    | none => if c = sep then some 0 else none

/-- Go `strings.EqualFold`, modelled as comparison after per-character lower
casing (the plugin only ever folds ASCII scale-set names). -/
def eqFold (a b : Str) : Bool := a.map Char.toLower == b.map Char.toLower

/-- `fmt.Sprintf("%s_%s", vmScaleSet, *vm.InstanceID)`: how `getRemoteIds`
builds a remote instance identifier. -/
def formatRemoteId (vmss instId : Str) : Str := vmss ++ ['_'] ++ instId

/-- The split `Scale` performs on a node's `RemoteResourceID`:
`strings.LastIndex(id, "_")`, then the slices `id[0:idx]` and `id[idx+1:]`.
`none` is the `idx == -1` case. -/
def splitRemoteId (node : Str) : Option (Str × Str) :=
  match lastIndexOfChar '_' node with
  | some idx => some (node.take idx, node.drop (idx + 1))
  | none => none

/-- Go `int64` division: truncation toward zero. -/
def goDiv (a b : Int) : Int := Int.tdiv a b

/-- Go `int64` remainder: sign follows the dividend, matching `Int.tmod`. -/
def goMod (a b : Int) : Int := Int.tmod a b

/-- `sdk.StrategyActionMetaValueDryRunCount`, the sentinel count meaning
"dry run" (constant of the autoscaler SDK consumed by `Scale`). -/
def dryRunCount : Int := -1

/-- `calculateScaleDirection(vmssDesired, strategyDesired)` from `plugin.go`:
returns the magnitude together with the direction string (`"in"`, `"out"`, or
`""`). -/
def calculateScaleDirection (vmssDesired strategyDesired : Int) : Int × String :=
  if strategyDesired < vmssDesired then (vmssDesired - strategyDesired, "in")
  else if strategyDesired > vmssDesired then (strategyDesired, "out")
  else (0, "")

/-- The per-shard counts produced by the scale-out loop of `Scale`: each shard
starts from `modulo` (`num / len`) and the first `reminder` (`num % len`)
shards get one extra, the running `reminder` being decremented as in the Go
loop. -/
def shardCounts (modulo : Int) : Int → Nat → List Int
  | _, 0 => []
  | reminder, n + 1 =>
    if reminder > 0 then (modulo + 1) :: shardCounts modulo (reminder - 1) n
    else modulo :: shardCounts modulo reminder n

/-- The even split of a magnitude `num` over `n` shards, as computed by
`Scale` (`modulo := num / int64(len(vmScaleSetList))`,
`reminder := num % int64(len(vmScaleSetList))`). -/
def perShardDelta (num : Int) (n : Nat) : List Int :=
  shardCounts (goDiv num n) (goMod num n) n

/-- Outcome of a Go function as observed by its caller: a returned value, a
returned `error`, or a runtime panic (e.g. index out of range, divide by
zero). -/
inductive GoResult (α : Type) where
  | ok : α → GoResult α
  | err : String → GoResult α
  | panic : String → GoResult α
deriving DecidableEq, Repr

/-- `true` exactly on `GoResult.ok`. -/
def GoResult.isOk : GoResult α → Bool
  | .ok _ => true
  | _ => false

/-- `true` exactly on `GoResult.err` (a returned Go `error`). -/
def GoResult.isErr : GoResult α → Bool
  | .err _ => true
  | _ => false

/-- `true` exactly on `GoResult.panic`. -/
def GoResult.isPanic : GoResult α → Bool
  | .panic _ => true
  | _ => false

/-- `true` exactly on `Except.ok`. -/
def exceptIsOk : Except String α → Bool
  | .ok _ => true
  | .error _ => false

/-- The externally visible calls `Scale` makes, in program order.  `logError`
records an executor failure that is only logged (the Go code writes it with
`logger.Error` inside the goroutine and discards it). -/
inductive Event where
  | getCapacity (rg vmss : Str)
  | listInstances (rg vmss : Str)
  | preDrain (ids : List Str) (count : Int)
  | updateCapacity (rg vmss : Str) (newCapacity : Int)
  | deleteInstances (rg vmss : Str) (ids : List Str)
  | postDrain (ids : List Str)
  | logError (msg : String)
deriving DecidableEq, Repr

/-- Coarse phase number of an event, used to state that `Scale`'s call trace
never goes backwards through the phases capacity-query → id-collection →
pre-drain → execution → post-drain. -/
def Event.phase : Event → Nat
  | .getCapacity _ _ => 0
  | .listInstances _ _ => 1
  | .preDrain _ _ => 2
  | .updateCapacity _ _ _ => 3
  | .deleteInstances _ _ _ => 3
  | .logError _ => 3
  | .postDrain _ => 4

/-- Event discriminators. -/
def Event.isPreDrain : Event → Bool
  | .preDrain _ _ => true
  | _ => false

def Event.isDeleteInstances : Event → Bool
  | .deleteInstances _ _ _ => true
  | _ => false

def Event.isPostDrain : Event → Bool
  | .postDrain _ => true
  | _ => false

def Event.isGetCapacity : Event → Bool
  | .getCapacity _ _ => true
  | _ => false

def Event.isLogError : Event → Bool
  | .logError _ => true
  | _ => false

def Event.isListInstances : Event → Bool
  | .listInstances _ _ => true
  | _ => false

def Event.isUpdateCapacity : Event → Bool
  | .updateCapacity _ _ _ => true
  | _ => false

/-- One VM as returned by the `vmssVMs.List` pager: its instance id and the
codes of its instance-view statuses (the only fields `getRemoteIds` reads). -/
structure VMEntry where
  instanceID : Str
  statuses : List Str
deriving DecidableEq, Repr

/-- Environment of `Scale`: the relevant configuration entries and the
external collaborators (Azure API and Nomad drain hooks).  `updateOk` and
`deleteOk` give the outcome (success / failure) of a shard executor's
resize-or-delete call together with its completion wait; the Go code only
logs these outcomes. -/
structure ScaleEnv where
  resourceGroupListCfg : Option Str
  vmScaleSetListCfg : Option Str
  capacity : Str → Str → Except String Int
  listVMs : Str → Str → Except String (List VMEntry)
  preScaleIn : List Str → Int → Except String (List Str)
  postScaleIn : List Str → Except String Unit
  updateOk : Str → Str → Bool
  deleteOk : Str → Str → Bool

def powerStateStr : Str := str "PowerState/"

def powerStateRunningStr : Str := str "PowerState/running"

def provisioningSucceededStr : Str := str "ProvisioningState/succeeded"

/-- `AzureController.getRemoteIds` body, given the listed VMs of one scale
set: for each VM the first status whose code starts with `PowerState/`
decides (the Go loop `break`s there); only `PowerState/running` VMs
contribute `vmScaleSet + "_" + instanceID` to the accumulator. -/
def getRemoteIds (vmss : Str) (vms : List VMEntry) (remoteIDs : List Str) : List Str :=
  vms.foldl
    (fun acc vm =>
      match vm.statuses.find? (fun c => powerStateStr.isPrefixOf c) with
      | some c => if c = powerStateRunningStr then acc ++ [formatRemoteId vmss vm.instanceID] else acc
      | none => acc)
    remoteIDs

/-- The sequential id-collection loop of the scale-in branch: for each shard
(indexing the resource-group list by the shard's position, a panic if out of
range) list its VMs and accumulate remote ids; abort on the first listing
error. -/
def collectIds (env : ScaleEnv) (rgs : List Str) (idx : Nat) (acc : List Str) :
    List Str → GoResult (List Str) × List Event
  | [] => (.ok acc, [])
  | v :: rest =>
    match rgs[idx]? with
    | none => (.panic "index out of range", [])
    | some rg =>
      match env.listVMs rg v with
      | .error e => (.err ("failed to egt remote ids in tasks: " ++ e), [.listInstances rg v])
      | .ok vms =>
        let r := collectIds env rgs (idx + 1) (getRemoteIds v vms acc) rest
        (r.1, .listInstances rg v :: r.2)

/-- The correlation loop of the scale-in branch (`instanceIDs` map build):
each cleared node id is split on its last `_`; an id with no `_` aborts with
the `errors.New` message; otherwise the instance id is appended to the
bucket of every scale set whose name matches the prefix case-insensitively. -/
def correlate (vmsses : List Str) (buckets : Str → List Str) :
    List Str → GoResult (Str → List Str)
  | [] => .ok buckets
  | node :: rest =>
    match splitRemoteId node with
    | some (pre, suf) =>
      let buckets' := vmsses.foldl
        (fun b v => if eqFold pre v then fun k => if k = v then b k ++ [suf] else b k else b)
        buckets
      correlate vmsses buckets' rest
    | none => .err "failed to get instance-id from remoteId"

/-- The delete-dispatch loop of the scale-in branch: every shard with a
non-empty instance bucket gets a `DeleteInstances` call (dispatched as a
goroutine in Go; the outcome is only logged).  All dispatched calls are
joined (`wg.Wait`) before the caller continues. -/
def deleteLoop (env : ScaleEnv) (rgs : List Str) (buckets : Str → List Str) (idx : Nat) :
    List Str → GoResult Unit × List Event
  | [] => (.ok (), [])
  | v :: rest =>
    if (buckets v).length > 0 then
      match rgs[idx]? with
      | none => (.panic "index out of range", [])
      | some rg =>
        let evs :=
          if env.deleteOk rg v then [Event.deleteInstances rg v (buckets v)]
          else [Event.deleteInstances rg v (buckets v), Event.logError "failed to scale in Azure ScaleSet"]
        let r := deleteLoop env rgs buckets (idx + 1) rest
        (r.1, evs ++ r.2)
    else
      deleteLoop env rgs buckets (idx + 1) rest

/-- The scale-out dispatch loop: each shard's count starts from `modulo` and
is bumped while `reminder > 0`; a positive count dispatches a capacity
update (goroutine whose outcome is only logged), a non-positive count is a
logged no-op. -/
def scaleOutLoop (env : ScaleEnv) (rgs : List Str) (modulo : Int) (idx : Nat) :
    Int → List Str → GoResult Unit × List Event
  | _, [] => (.ok (), [])
  | reminder, v :: rest =>
    let count := if reminder > 0 then modulo + 1 else modulo
    let reminder' := if reminder > 0 then reminder - 1 else reminder
    if count > 0 then
      match rgs[idx]? with
      | none => (.panic "index out of range", [])
      | some rg =>
        let evs :=
          if env.updateOk rg v then [Event.updateCapacity rg v count]
          else [Event.updateCapacity rg v count, Event.logError "failed to get the vmss update response"]
        let r := scaleOutLoop env rgs modulo (idx + 1) reminder' rest
        (r.1, evs ++ r.2)
    else
      scaleOutLoop env rgs modulo (idx + 1) reminder' rest

/-- The whole scale-in branch of `Scale`: sequential id collection, the
pre-scale-in hook, correlation, parallel deletes (joined), then the
post-scale-in hook. -/
def scaleInBranch (env : ScaleEnv) (rgs vmsses : List Str) (num : Int) :
    GoResult Unit × List Event :=
  match collectIds env rgs 0 [] vmsses with
  | (.ok remoteIDs, evs) =>
    match env.preScaleIn remoteIDs num with
    | .error e =>
      (.err ("failed to perform pre-scale Nomad scale in tasks: " ++ e),
        evs ++ [.preDrain remoteIDs num])
    | .ok ids =>
      match correlate vmsses (fun _ => []) ids with
      | .err m => (.err m, evs ++ [.preDrain remoteIDs num])
      | .panic m => (.panic m, evs ++ [.preDrain remoteIDs num])
      | .ok buckets =>
        let d := deleteLoop env rgs buckets 0 vmsses
        match d.1 with
        | .panic m => (.panic m, evs ++ [.preDrain remoteIDs num] ++ d.2)
        | _ =>
          match env.postScaleIn ids with
          | .error e =>
            (.err ("failed to perform post-scale Nomad scale in tasks: " ++ e),
              evs ++ [.preDrain remoteIDs num] ++ d.2 ++ [.postDrain ids])
          | .ok _ =>
            (.ok (), evs ++ [.preDrain remoteIDs num] ++ d.2 ++ [.postDrain ids])
  | (.err m, evs) => (.err m, evs)
  | (.panic m, evs) => (.panic m, evs)

/-- The capacity-query loop at the top of `Scale`: sums `Sku.Capacity` over
the scale sets, indexing the resource-group list by shard position. -/
def capacityLoop (env : ScaleEnv) (rgs : List Str) (idx : Nat) (acc : Int) :
    List Str → GoResult Int × List Event
  | [] => (.ok acc, [])
  | v :: rest =>
    match rgs[idx]? with
    | none => (.panic "index out of range", [])
    | some rg =>
      match env.capacity rg v with
      | .error e => (.err ("failed to get Azure vmss: " ++ e), [.getCapacity rg v])
      | .ok cap =>
        let r := capacityLoop env rgs (idx + 1) (acc + cap) rest
        (r.1, .getCapacity rg v :: r.2)

/-- The `switch direction` statement of `Scale` (the `modulo` / `reminder`
computation of the Go code is pure and is folded into the out branch). -/
def scaleSwitch (env : ScaleEnv) (rgs vmsses : List Str) (total count : Int) :
    GoResult Unit × List Event :=
  let nd := calculateScaleDirection total count
  if nd.2 = "out" then
    scaleOutLoop env rgs (goDiv nd.1 vmsses.length) 0 (goMod nd.1 vmsses.length) vmsses
  else if nd.2 = "in" then scaleInBranch env rgs vmsses nd.1
  else (.ok (), [])

/-- `TargetPlugin.Scale`: dry-run short circuit, configuration reads, the
capacity-query loop, then the direction switch. -/
def scale (env : ScaleEnv) (count : Int) : GoResult Unit × List Event :=
  if count = dryRunCount then (.ok (), [])
  else
    match env.resourceGroupListCfg with
    | none => (.err "required config param resource_group_list not found", [])
    | some rgStr =>
      match env.vmScaleSetListCfg with
      | none => (.err "required config param vm_scale_set_list not found", [])
      | some vmssStr =>
        let rgs := splitOnChar ',' rgStr
        let vmsses := splitOnChar ',' vmssStr
        match capacityLoop env rgs 0 0 vmsses with
        | (.ok total, evs) =>
          let r := scaleSwitch env rgs vmsses total count
          (r.1, evs ++ r.2)
        | (.err m, evs) => (.err m, evs)
        | (.panic m, evs) => (.panic m, evs)

/-- One instance-view status as read by `processInstanceView`: its code and
its (possibly absent) event time, as epoch nanoseconds. -/
structure InstStatus where
  code : Str
  time : Option Int
deriving DecidableEq, Repr

/-- What `Status` reads from one scale set: `Sku.Capacity`, the codes of
`VirtualMachine.StatusesSummary`, and the instance-view `Statuses`. -/
structure ShardView where
  capacity : Int
  statusesSummary : List Str
  statuses : List InstStatus
deriving DecidableEq, Repr

/-- The per-shard `sdk.TargetStatus` value built by `Status` and filled in by
`processInstanceView`; `lastEvent` is the parsed `Meta` last-event entry,
`none` when the key was never written. -/
structure TargetStatus where
  ready : Bool
  count : Int
  lastEvent : Option Int
deriving DecidableEq, Repr

/-- The aggregated status `Status` returns (its last-event `Meta` entry is
always written, sentinel included). -/
structure FleetStatus where
  ready : Bool
  count : Int
  lastEvent : Int
deriving DecidableEq, Repr

/-- `math.MinInt64`, the initial accumulator of every last-event maximum. -/
def minInt64 : Int := -9223372036854775808

/-- The second loop of `processInstanceView` over the instance-view statuses:
any non-succeeded code clears readiness; a populated time that exceeds the
running latest updates both the latest and the `Meta` last-event entry. -/
def statusesScan : List InstStatus → Bool → Int → Option Int → Bool × Int × Option Int
  | [], r, latest, meta => (r, latest, meta)
  | s :: rest, r, latest, meta =>
    let r' := if s.code ≠ provisioningSucceededStr then false else r
    match s.time with
    | some t =>
      if t > latest then statusesScan rest r' t (some t)
      else statusesScan rest r' latest meta
    | none => statusesScan rest r' latest meta

/-- `processInstanceView` applied to the per-shard response: the first loop
clears readiness on any non-succeeded `StatusesSummary` code, the second
scans the instance-view statuses. -/
def processInstanceView (v : ShardView) : TargetStatus :=
  let ready1 := v.statusesSummary.foldl
    (fun r c => if c ≠ provisioningSucceededStr then false else r) true
  let r := statusesScan v.statuses ready1 minInt64 none
  { ready := r.1, count := v.capacity, lastEvent := r.2.2 }

/-- The aggregation loop of `Status` over the scale sets: readiness is
and-ed, capacities are summed, and a present per-shard last-event entry that
exceeds the running latest replaces it. -/
def statusLoop : List ShardView → Bool → Int → Int → Bool × Int × Int
  | [], ready, total, latest => (ready, total, latest)
  | v :: rest, ready, total, latest =>
    let resp := processInstanceView v
    let total' := total + resp.count
    let ready' := if ready && !resp.ready then false else ready
    match resp.lastEvent with
    | some t =>
      if t > latest then statusLoop rest ready' total' t
      else statusLoop rest ready' total' latest
    | none => statusLoop rest ready' total' latest

/-- The status aggregation of `Status` (`plugin.go` lines 187–228) over the
successfully queried per-shard views. -/
def statusAggregate (views : List ShardView) : FleetStatus :=
  let r := statusLoop views true 0 minInt64
  { ready := r.1, count := r.2.1, lastEvent := r.2.2 }

/-- Spec-side readiness of one shard: every code in both status collections
is `ProvisioningState/succeeded`. -/
def shardReadySpec (v : ShardView) : Bool :=
  v.statusesSummary.all (fun c => c = provisioningSucceededStr) &&
    v.statuses.all (fun s => s.code = provisioningSucceededStr)

/-- All known (populated) event times of a fleet, in order. -/
def knownTimes (views : List ShardView) : List Int :=
  views.foldr (fun v acc => v.statuses.filterMap (fun s => s.time) ++ acc) []

/-- The running maximum of one shard's known event times, seeded with the
`math.MinInt64` sentinel. -/
def shardLatest (v : ShardView) : Int :=
  List.foldl max minInt64 (v.statuses.filterMap (fun s => s.time))

/-- A concrete two-shard fleet (one healthy shard of capacity 2 with last
event 100, one failed shard of capacity 3 with last event 200) used to
instantiate the aggregation theorem. -/
def statusViewsExample : List ShardView :=
  [⟨2, [provisioningSucceededStr], [⟨provisioningSucceededStr, some 100⟩]⟩,
    ⟨3, [], [⟨str "ProvisioningState/failed", some 200⟩]⟩]

/-- The even-split computation of `Scale` (`modulo := num / int64(shardCount)`,
`reminder := num % int64(shardCount)`, then the per-shard counts) as a
function of the shard count.  Go integer division by a zero divisor is a
runtime panic, not a returned error, so a zero shard count panics. -/
def evenSplit (num : Int) (n : Nat) : GoResult (List Int) :=
  if n = 0 then .panic "runtime error: integer divide by zero"
  else .ok (perShardDelta num n)

/-- Replaces the shard-executor outcomes of an environment, leaving every
other collaborator untouched. -/
def setExec (env : ScaleEnv) (f g : Str → Str → Bool) : ScaleEnv :=
  { env with updateOk := f, deleteOk := g }

/-- The dispatched external calls of a trace: everything except the purely
informational `logError` entries. -/
def dispatchTrace (evs : List Event) : List Event :=
  evs.filter (fun e => !e.isLogError)

/-- Three shards with total capacity 6; the executor of shard `b` fails its
capacity update while `a` and `c` succeed. -/
def envC1 : ScaleEnv where
  resourceGroupListCfg := some (str "r1,r2,r3")
  vmScaleSetListCfg := some (str "a,b,c")
  capacity := fun _ _ => .ok 2
  listVMs := fun _ _ => .ok []
  preScaleIn := fun ids _ => .ok ids
  postScaleIn := fun _ => .ok ()
  updateOk := fun _ v => !(v == str "b")
  deleteOk := fun _ _ => true

/-- A scale-in environment whose drain hook returns the underscore-free
identifier `"abc"`. -/
def envC6 : ScaleEnv where
  resourceGroupListCfg := some (str "r1")
  vmScaleSetListCfg := some (str "a")
  capacity := fun _ _ => .ok 2
  listVMs := fun _ _ => .ok []
  preScaleIn := fun _ _ => .ok [str "abc"]
  postScaleIn := fun _ => .ok ()
  updateOk := fun _ _ => true
  deleteOk := fun _ _ => true

/-- One resource group but two scale-set names: the parallel lists have
mismatched lengths. -/
def envC9 : ScaleEnv where
  resourceGroupListCfg := some (str "r1")
  vmScaleSetListCfg := some (str "a,b")
  capacity := fun _ _ => .ok 2
  listVMs := fun _ _ => .ok []
  preScaleIn := fun ids _ => .ok ids
  postScaleIn := fun _ => .ok ()
  updateOk := fun _ _ => true
  deleteOk := fun _ _ => true

/-- A one-shard (`web`) scale-in environment whose drain hook clears the
extra identifier `"zzz_9"`, whose prefix matches no configured shard, next
to the genuine `"web_1"`. -/
def envC10 : ScaleEnv where
  resourceGroupListCfg := some (str "rg")
  vmScaleSetListCfg := some (str "web")
  capacity := fun _ _ => .ok 2
  listVMs := fun _ _ => .ok [⟨str "1", [str "PowerState/running"]⟩]
  preScaleIn := fun ids _ => .ok (str "zzz_9" :: ids)
  postScaleIn := fun _ => .ok ()
  updateOk := fun _ _ => true
  deleteOk := fun _ _ => true

/-- A two-shard environment where shard `a`'s instance listing succeeds but
shard `b`'s fails — the id-collection loop errors on the second shard after
a successful first — and whose drain hook always fails; used to instantiate
the abort conjuncts of the ordering theorem. -/
def envLateFail : ScaleEnv where
  resourceGroupListCfg := some (str "r1,r2")
  vmScaleSetListCfg := some (str "a,b")
  capacity := fun _ _ => .ok 5
  listVMs := fun _ v => if v = str "b" then .error "listing down" else .ok []
  preScaleIn := fun _ _ => .error "hook down"
  postScaleIn := fun _ => .ok ()
  updateOk := fun _ _ => true
  deleteOk := fun _ _ => true

/-- An inert environment used to instantiate universally quantified theorems
at a concrete input. -/
def envTrivial : ScaleEnv where
  resourceGroupListCfg := some (str "r1")
  vmScaleSetListCfg := some (str "a")
  capacity := fun _ _ => .ok 0
  listVMs := fun _ _ => .ok []
  preScaleIn := fun ids _ => .ok ids
  postScaleIn := fun _ => .ok ()
  updateOk := fun _ _ => true
  deleteOk := fun _ _ => true

theorem splitOnChar_length_pos (sep : Char) (s : Str) :
    1 ≤ (splitOnChar sep s).length := by
  induction s with
  | nil => simp [splitOnChar]
  | cons c rest ih =>
    simp only [splitOnChar]
    split
    · simp
    · match h : splitOnChar sep rest with
      | [] => simp
      | h' :: t => simp

theorem shardCounts_eq_replicate (q : Int) :
    ∀ (n : Nat) (r : Int), 0 ≤ r → r.toNat ≤ n →
      shardCounts q r n = List.replicate r.toNat (q + 1) ++ List.replicate (n - r.toNat) q := by
  intro n
  induction n with
  | zero =>
    intro r hr hle
    have h0 : r.toNat = 0 := Nat.le_zero.mp hle
    simp [shardCounts, h0]
  | succ n ih =>
    intro r hr hle
    by_cases hpos : r > 0
    · have h1 : shardCounts q r (n + 1) = (q + 1) :: shardCounts q (r - 1) n := by
        simp [shardCounts, hpos]
      rw [h1, ih (r - 1) (by omega) (by omega)]
      have h2 : (r - 1).toNat = r.toNat - 1 := by omega
      have h3 : n - (r.toNat - 1) = n + 1 - r.toNat := by omega
      rw [h2, h3]
      have h4 : r.toNat = (r.toNat - 1) + 1 := by omega
      conv_rhs => rw [h4, List.replicate_succ]
      simp
      omega
    · have hr0 : r = 0 := by omega
      subst hr0
      have h1 : shardCounts q 0 (n + 1) = q :: shardCounts q 0 n := by
        simp [shardCounts]
      rw [h1, ih 0 le_rfl (Nat.zero_le n)]
      simp [List.replicate_succ]

theorem goMod_nonneg (num : Int) (n : Nat) (hm : 0 ≤ num) : 0 ≤ goMod num n :=
  Int.tmod_nonneg _ hm

theorem goMod_lt (num : Int) (n : Nat) (hn : 1 ≤ n) : goMod num n < n :=
  Int.tmod_lt_of_pos num (by omega)

theorem goDiv_add_goMod (num : Int) (n : Nat) : (n : Int) * goDiv num n + goMod num n = num :=
  Int.tdiv_add_tmod num n

/-- C3: for every magnitude `m ≥ 0` and shard count `n ≥ 1`, the per-shard
split computed by `Scale` from `base = m / n` (truncating) and
`remainder = m % n` is `remainder` copies of `base + 1` followed by
`n - remainder` copies of `base` (larger elements at the lowest-indexed
shards), so its length is `n`, it sums to exactly `m`, every element is at
least `⌊m/n⌋`, and when `m % n > 0` exactly `m % n` elements equal
`⌈m/n⌉ = base + 1` while the rest equal `base`. -/
theorem perShardDelta_spec (num : Int) (n : Nat) (hm : 0 ≤ num) (hn : 1 ≤ n) :
    perShardDelta num n =
      List.replicate (goMod num n).toNat (goDiv num n + 1) ++
        List.replicate (n - (goMod num n).toNat) (goDiv num n) ∧
    (perShardDelta num n).length = n ∧
    (perShardDelta num n).sum = num ∧
    (∀ x ∈ perShardDelta num n, goDiv num n ≤ x) ∧
    (0 < goMod num n →
      (perShardDelta num n).count (goDiv num n + 1) = (goMod num n).toNat ∧
      (perShardDelta num n).count (goDiv num n) = n - (goMod num n).toNat) := by
  have hr0 : 0 ≤ goMod num n := goMod_nonneg num n hm
  have hrn : goMod num n < n := goMod_lt num n hn
  have heq : (n : Int) * goDiv num n + goMod num n = num := goDiv_add_goMod num n
  have h := shardCounts_eq_replicate (goDiv num n) n (goMod num n) hr0 (by omega)
  have hpsd : perShardDelta num n =
      List.replicate (goMod num n).toNat (goDiv num n + 1) ++
        List.replicate (n - (goMod num n).toNat) (goDiv num n) := h
  refine ⟨hpsd, ?_, ?_, ?_, ?_⟩
  · rw [hpsd]
    simp
    omega
  · rw [hpsd, List.sum_append, List.sum_replicate, List.sum_replicate,
      nsmul_eq_mul, nsmul_eq_mul]
    have e1 : ((goMod num n).toNat : Int) = goMod num n := by omega
    have e2 : ((n - (goMod num n).toNat : Nat) : Int) = (n : Int) - goMod num n := by omega
    rw [e1, e2]
    linear_combination heq
  · intro x hx
    rw [hpsd] at hx
    rcases List.mem_append.mp hx with hx | hx
    · have := (List.eq_of_mem_replicate hx)
      omega
    · have := (List.eq_of_mem_replicate hx)
      omega
  · intro hrpos
    constructor
    · rw [hpsd, List.count_append, List.count_replicate, List.count_replicate]
      have hne : goDiv num ↑n + 1 ≠ goDiv num ↑n := by omega
      have hne' : goDiv num ↑n ≠ goDiv num ↑n + 1 := by omega
      simp [beq_iff_eq, hne, hne']
    · rw [hpsd, List.count_append, List.count_replicate, List.count_replicate]
      have hne : goDiv num ↑n + 1 ≠ goDiv num ↑n := by omega
      have hne' : goDiv num ↑n ≠ goDiv num ↑n + 1 := by omega
      simp [beq_iff_eq, hne, hne']

theorem perShardDelta_spec_witness :
    perShardDelta 7 3 =
      List.replicate (goMod 7 3).toNat (goDiv 7 3 + 1) ++
        List.replicate (3 - (goMod 7 3).toNat) (goDiv 7 3) ∧
    (perShardDelta 7 3).sum = 7 ∧
    (perShardDelta 7 3).count (goDiv 7 3 + 1) = (goMod 7 3).toNat := by
  refine ⟨(perShardDelta_spec 7 3 (by decide) (by decide)).1,
    (perShardDelta_spec 7 3 (by decide) (by decide)).2.2.1,
    ((perShardDelta_spec 7 3 (by decide) (by decide)).2.2.2.2 (by decide)).1⟩

/-- C2: `calculateScaleDirection` returns shrink (`"in"`) with magnitude
`current - target` when `target < current`, grow (`"out"`) with the absolute
target as magnitude when `target > current`, and the empty direction with
magnitude `0` when they are equal, in which case the direction switch of
`Scale` performs no further action (no calls, success). -/
theorem calculateScaleDirection_spec (env : ScaleEnv) (rgs vmsses : List Str) (c t : Int) :
    (t < c → calculateScaleDirection c t = (c - t, "in")) ∧
    (t > c → calculateScaleDirection c t = (t, "out")) ∧
    (t = c → calculateScaleDirection c t = (0, "") ∧
      scaleSwitch env rgs vmsses c t = (.ok (), [])) := by
  refine ⟨fun h => ?_, fun h => ?_, fun h => ?_⟩
  · simp [calculateScaleDirection, h]
  · simp [calculateScaleDirection, not_lt.mpr (le_of_lt h), h]
  · subst h
    have hd : calculateScaleDirection t t = (0, "") := by
      simp [calculateScaleDirection]
    exact ⟨hd, by simp [scaleSwitch, hd]⟩

theorem calculateScaleDirection_spec_witness :
    calculateScaleDirection 5 3 = (2, "in") ∧
    calculateScaleDirection 3 5 = (5, "out") ∧
    scaleSwitch envTrivial [str "r1"] [str "a"] 4 4 = (.ok (), []) := by
  refine ⟨(calculateScaleDirection_spec envTrivial [] [] 5 3).1 (by decide),
    (calculateScaleDirection_spec envTrivial [] [] 3 5).2.1 (by decide),
    ((calculateScaleDirection_spec envTrivial [str "r1"] [str "a"] 4 4).2.2 rfl).2⟩

/-- C8 counterexample: at shard count `0` the even-split computation does not
fail with any returned (`InvalidInput`-style) error — Go integer division by
zero is a runtime panic instead. -/
theorem evenSplit_zero_counterexample :
    (evenSplit 5 0).isErr = false ∧
    evenSplit 5 0 = GoResult.panic "runtime error: integer divide by zero" := by
  constructor
  · rfl
  · rfl

/-- C8 (amended): `Scale` derives the shard count with `strings.Split`, which
always yields at least one element, so the even-split division and modulo are
only ever reached with a shard count of at least `1` and never panic; the
code contains no `InvalidInput` check for a zero shard count (an actual zero
divisor would be a divide-by-zero panic, see the counterexample). -/
theorem evenSplit_reachable_spec (s : Str) (num : Int) :
    1 ≤ (splitOnChar ',' s).length ∧
    (evenSplit num (splitOnChar ',' s).length).isPanic = false ∧
    evenSplit num (splitOnChar ',' s).length =
      GoResult.ok (perShardDelta num (splitOnChar ',' s).length) := by
  have h := splitOnChar_length_pos ',' s
  have hne : (splitOnChar ',' s).length ≠ 0 := by omega
  refine ⟨h, ?_, ?_⟩
  · simp [evenSplit, hne, GoResult.isPanic]
  · simp [evenSplit, hne]

theorem lastIndexOfChar_of_not_mem {c : Char} {s : Str} (h : c ∉ s) :
    lastIndexOfChar c s = none := by
  induction s with
  | nil => rfl
  | cons x xs ih =>
    have hx : x ≠ c := fun he => h (he ▸ List.mem_cons_self x xs)
    have hxs : c ∉ xs := fun hm => h (List.mem_cons_of_mem x hm)
    simp [lastIndexOfChar, ih hxs, hx]

theorem lastIndexOfChar_format (s i : Str) (h : '_' ∉ i) :
    lastIndexOfChar '_' (formatRemoteId s i) = some s.length := by
  induction s with
  | nil => simp [formatRemoteId, lastIndexOfChar, lastIndexOfChar_of_not_mem h]
  | cons c cs ih =>
    have : formatRemoteId (c :: cs) i = c :: formatRemoteId cs i := rfl
    rw [this]
    simp [lastIndexOfChar, ih]

theorem eqFold_refl (s : Str) : eqFold s s = true := by
  simp [eqFold]

/-- C4: the remote-id round trip.  For any shard name `s` (underscores in `s`
allowed) and any underscore-free instance id `i`, formatting `s + "_" + i`
and splitting on the last `_` recovers exactly the pair `(s, i)`, and the
recovered shard name matches the configured one case-insensitively (so the
correlation assigns the instance to its shard). -/
theorem remoteId_roundtrip (s i : Str) (h : '_' ∉ i) :
    splitRemoteId (formatRemoteId s i) = some (s, i) ∧ eqFold s s = true := by
  refine ⟨?_, eqFold_refl s⟩
  rw [splitRemoteId, lastIndexOfChar_format s i h]
  have hfmt : formatRemoteId s i = (s ++ ['_']) ++ i := by
    simp [formatRemoteId]
  have htake : (formatRemoteId s i).take s.length = s := by
    rw [hfmt, List.append_assoc, List.take_left]
  have hdrop : (formatRemoteId s i).drop (s.length + 1) = i := by
    rw [hfmt, List.drop_left' (by simp)]
  simp only [htake, hdrop]

theorem remoteId_roundtrip_witness :
    splitRemoteId (formatRemoteId (str "web_gpu") (str "3")) =
      some (str "web_gpu", str "3") ∧
    eqFold (str "web_gpu") (str "web_gpu") = true :=
  remoteId_roundtrip (str "web_gpu") (str "3") (by decide)

theorem foldl_max_max (l : List Int) (a : Int) :
    ∀ b, List.foldl max (max a b) l = max a (List.foldl max b l) := by
  induction l with
  | nil => intro b; rfl
  | cons x xs ih =>
    intro b
    have h1 : max (max a b) x = max a (max b x) := max_assoc a b x
    simp only [List.foldl_cons, h1, ih (max b x)]

theorem le_foldl_max (l : List Int) : ∀ a, a ≤ List.foldl max a l := by
  induction l with
  | nil => intro a; exact le_rfl
  | cons x xs ih =>
    intro a
    exact le_trans (le_max_left a x) (ih (max a x))

theorem mem_le_foldl_max (l : List Int) : ∀ a, ∀ t ∈ l, t ≤ List.foldl max a l := by
  induction l with
  | nil => intro a t ht; cases ht
  | cons x xs ih =>
    intro a t ht
    rcases List.mem_cons.mp ht with h | h
    · subst h
      exact le_trans (le_max_right a t) (le_foldl_max xs (max a t))
    · exact ih (max a x) t h

theorem foldl_max_mem (xs : List Int) : ∀ x, List.foldl max x xs ∈ x :: xs := by
  induction xs with
  | nil => intro x; exact List.mem_singleton.mpr rfl
  | cons y ys ih =>
    intro x
    have h := ih (max x y)
    rcases List.mem_cons.mp h with h' | h'
    · rcases max_choice x y with hm | hm <;> simp only [List.foldl_cons, h'] <;> rw [hm]
      · exact List.mem_cons_self _ _
      · exact List.mem_cons_of_mem _ (List.mem_cons_self _ _)
    · exact List.mem_cons_of_mem _ (List.mem_cons_of_mem _ h')

theorem statusesScan_ready (sts : List InstStatus) :
    ∀ (r : Bool) (l : Int) (m : Option Int),
      (statusesScan sts r l m).1 =
        (r && sts.all (fun s => s.code = provisioningSucceededStr)) := by
  induction sts with
  | nil => intro r l m; simp [statusesScan]
  | cons s rest ih =>
    intro r l m
    by_cases hc : s.code = provisioningSucceededStr
    · have hr : (if s.code ≠ provisioningSucceededStr then false else r) = r := by
        simp [hc]
      cases ht : s.time with
      | some t =>
        by_cases hgt : t > l <;> simp [statusesScan, ht, hgt, hr, ih, hc]
      | none => simp [statusesScan, ht, hr, ih, hc]
    · have hr : (if s.code ≠ provisioningSucceededStr then false else r) = false := by
        simp [hc]
      cases ht : s.time with
      | some t =>
        by_cases hgt : t > l <;> simp [statusesScan, ht, hgt, hr, ih, hc]
      | none => simp [statusesScan, ht, hr, ih, hc]

theorem statusesScan_latest (sts : List InstStatus) :
    ∀ (r : Bool) (l : Int) (m : Option Int),
      (statusesScan sts r l m).2.1 =
        List.foldl max l (sts.filterMap (fun s => s.time)) := by
  induction sts with
  | nil => intro r l m; simp [statusesScan]
  | cons s rest ih =>
    intro r l m
    cases ht : s.time with
    | some t =>
      by_cases hgt : t > l
      · have hm : max l t = t := max_eq_right (le_of_lt hgt)
        simp [statusesScan, ht, hgt, ih, hm]
      · have hm : max l t = l := max_eq_left (not_lt.mp hgt)
        simp [statusesScan, ht, hgt, ih, hm]
    | none => simp [statusesScan, ht, ih]

theorem statusesScan_meta (sts : List InstStatus) :
    ∀ (r : Bool) (l : Int) (m : Option Int),
      ((statusesScan sts r l m).2.2 = m ∧ (statusesScan sts r l m).2.1 = l) ∨
        ((statusesScan sts r l m).2.2 = some (statusesScan sts r l m).2.1 ∧
          l < (statusesScan sts r l m).2.1) := by
  induction sts with
  | nil => intro r l m; exact Or.inl ⟨rfl, rfl⟩
  | cons s rest ih =>
    intro r l m
    cases ht : s.time with
    | some t =>
      by_cases hgt : t > l
      · have heq : statusesScan (s :: rest) r l m =
            statusesScan rest (if s.code ≠ provisioningSucceededStr then false else r) t (some t) := by
          simp [statusesScan, ht, hgt]
        rw [heq]
        rcases ih (if s.code ≠ provisioningSucceededStr then false else r) t (some t) with ⟨h1, h2⟩ | ⟨h1, h2⟩
        · exact Or.inr ⟨by rw [h1, h2], by rw [h2]; exact hgt⟩
        · exact Or.inr ⟨h1, lt_trans hgt h2⟩
      · have heq : statusesScan (s :: rest) r l m =
            statusesScan rest (if s.code ≠ provisioningSucceededStr then false else r) l m := by
          simp [statusesScan, ht, hgt]
        rw [heq]
        exact ih _ l m
    | none =>
      have heq : statusesScan (s :: rest) r l m =
          statusesScan rest (if s.code ≠ provisioningSucceededStr then false else r) l m := by
        simp [statusesScan, ht]
      rw [heq]
      exact ih _ l m

theorem foldl_ready_all (cs : List Str) :
    ∀ r : Bool,
      cs.foldl (fun r c => if c ≠ provisioningSucceededStr then false else r) r =
        (r && cs.all (fun c => c = provisioningSucceededStr)) := by
  induction cs with
  | nil => intro r; simp
  | cons c rest ih =>
    intro r
    rw [List.foldl_cons, ih]
    by_cases hc : c = provisioningSucceededStr <;> simp [hc]

theorem processInstanceView_ready (v : ShardView) :
    (processInstanceView v).ready = shardReadySpec v := by
  have h : (processInstanceView v).ready =
      (statusesScan v.statuses
        (v.statusesSummary.foldl (fun r c => if c ≠ provisioningSucceededStr then false else r) true)
        minInt64 none).1 := rfl
  rw [h, statusesScan_ready, foldl_ready_all]
  simp [shardReadySpec]

theorem processInstanceView_count (v : ShardView) :
    (processInstanceView v).count = v.capacity := rfl

theorem processInstanceView_lastEvent (v : ShardView) :
    ((processInstanceView v).lastEvent = none ∧ shardLatest v = minInt64) ∨
      ((processInstanceView v).lastEvent = some (shardLatest v) ∧
        minInt64 < shardLatest v) := by
  have hl : (statusesScan v.statuses
      (v.statusesSummary.foldl (fun r c => if c ≠ provisioningSucceededStr then false else r) true)
      minInt64 none).2.1 = shardLatest v := by
    rw [statusesScan_latest]; rfl
  have hm := statusesScan_meta v.statuses
    (v.statusesSummary.foldl (fun r c => if c ≠ provisioningSucceededStr then false else r) true)
    minInt64 none
  rcases hm with ⟨h1, h2⟩ | ⟨h1, h2⟩
  · exact Or.inl ⟨h1, by rw [← hl, h2]⟩
  · exact Or.inr ⟨by rw [← hl]; exact h1, by rw [← hl]; exact h2⟩

theorem knownTimes_cons (v : ShardView) (rest : List ShardView) :
    knownTimes (v :: rest) =
      v.statuses.filterMap (fun s => s.time) ++ knownTimes rest := rfl

theorem statusLoop_ready (views : List ShardView) :
    ∀ (ready : Bool) (total latest : Int),
      (statusLoop views ready total latest).1 =
        (ready && views.all shardReadySpec) := by
  induction views with
  | nil => intro ready total latest; simp [statusLoop]
  | cons v rest ih =>
    intro ready total latest
    have hb : (if ready && !(processInstanceView v).ready then false else ready) =
        (ready && (processInstanceView v).ready) := by
      cases ready <;> cases h : (processInstanceView v).ready <;> simp [h]
    cases hle : (processInstanceView v).lastEvent with
    | some t =>
      by_cases hgt : t > latest <;>
        simp [statusLoop, hle, hgt, hb, ih, processInstanceView_ready, Bool.and_assoc] <;>
        cases ready <;> simp
    | none =>
      simp [statusLoop, hle, hb, ih, processInstanceView_ready, Bool.and_assoc]
      cases ready <;> simp

theorem statusLoop_count (views : List ShardView) :
    ∀ (ready : Bool) (total latest : Int),
      (statusLoop views ready total latest).2.1 =
        total + (views.map ShardView.capacity).sum := by
  induction views with
  | nil => intro ready total latest; simp [statusLoop]
  | cons v rest ih =>
    intro ready total latest
    cases hle : (processInstanceView v).lastEvent with
    | some t =>
      by_cases hgt : t > latest <;>
        simp [statusLoop, hle, hgt, ih, processInstanceView_count] <;> ring
    | none =>
      simp [statusLoop, hle, ih, processInstanceView_count]
      ring

theorem statusLoop_latest (views : List ShardView) :
    ∀ (ready : Bool) (total latest : Int), minInt64 ≤ latest →
      (statusLoop views ready total latest).2.2 =
        List.foldl max latest (knownTimes views) := by
  induction views with
  | nil => intro ready total latest _; simp [statusLoop, knownTimes]
  | cons v rest ih =>
    intro ready total latest hmin
    have hsplit : List.foldl max latest (knownTimes (v :: rest)) =
        List.foldl max (List.foldl max latest (v.statuses.filterMap (fun s => s.time))) (knownTimes rest) := by
      rw [knownTimes_cons, List.foldl_append]
    have hshard : List.foldl max latest (v.statuses.filterMap (fun s => s.time)) =
        max latest (shardLatest v) := by
      have h1 : max latest minInt64 = latest := max_eq_left hmin
      calc List.foldl max latest (v.statuses.filterMap (fun s => s.time))
          = List.foldl max (max latest minInt64) (v.statuses.filterMap (fun s => s.time)) := by rw [h1]
        _ = max latest (List.foldl max minInt64 (v.statuses.filterMap (fun s => s.time))) :=
            foldl_max_max _ latest minInt64
        _ = max latest (shardLatest v) := rfl
    rcases processInstanceView_lastEvent v with ⟨h1, h2⟩ | ⟨h1, h2⟩
    · have hstep : statusLoop (v :: rest) ready total latest =
          statusLoop rest (if ready && !(processInstanceView v).ready then false else ready)
            (total + (processInstanceView v).count) latest := by
        simp [statusLoop, h1]
      rw [hstep, ih _ _ latest hmin, hsplit, hshard, h2, max_eq_left hmin]
    · by_cases hgt : shardLatest v > latest
      · have hstep : statusLoop (v :: rest) ready total latest =
            statusLoop rest (if ready && !(processInstanceView v).ready then false else ready)
              (total + (processInstanceView v).count) (shardLatest v) := by
          simp [statusLoop, h1, hgt]
        rw [hstep, ih _ _ _ (le_of_lt h2), hsplit, hshard,
          max_eq_right (le_of_lt hgt)]
      · have hstep : statusLoop (v :: rest) ready total latest =
            statusLoop rest (if ready && !(processInstanceView v).ready then false else ready)
              (total + (processInstanceView v).count) latest := by
          simp [statusLoop, h1, hgt]
        rw [hstep, ih _ _ latest hmin, hsplit, hshard,
          max_eq_left (not_lt.mp hgt)]

/-- C7: status aggregation over the ordered per-shard views returns readiness
equal to the AND of all shard readiness flags (a shard is not ready when any
code of its VM-level statuses summary or of its instance-view statuses is
not `ProvisioningState/succeeded`), count equal to the SUM of the shard
capacities, and a last event equal to the MAX of all known per-instance
event times, with the `math.MinInt64` sentinel reported when no event time
is known; every shard contributes to count and last event even after
readiness has become false.  The range hypothesis states that every event
time fits in `int64`, which holds of every Go value. -/
theorem statusAggregate_spec (views : List ShardView)
    (hrange : ∀ t ∈ knownTimes views, minInt64 ≤ t) :
    (statusAggregate views).ready = views.all shardReadySpec ∧
    (statusAggregate views).count = (views.map ShardView.capacity).sum ∧
    (statusAggregate views).lastEvent = List.foldl max minInt64 (knownTimes views) ∧
    (knownTimes views = [] → (statusAggregate views).lastEvent = minInt64) ∧
    (∀ t ∈ knownTimes views, t ≤ (statusAggregate views).lastEvent) ∧
    (knownTimes views ≠ [] → (statusAggregate views).lastEvent ∈ knownTimes views) := by
  have hready : (statusAggregate views).ready = (statusLoop views true 0 minInt64).1 := rfl
  have hcount : (statusAggregate views).count = (statusLoop views true 0 minInt64).2.1 := rfl
  have hlast : (statusAggregate views).lastEvent = (statusLoop views true 0 minInt64).2.2 := rfl
  have hfold : (statusAggregate views).lastEvent =
      List.foldl max minInt64 (knownTimes views) := by
    rw [hlast, statusLoop_latest views true 0 minInt64 le_rfl]
  refine ⟨?_, ?_, hfold, ?_, ?_, ?_⟩
  · rw [hready, statusLoop_ready]
    simp
  · rw [hcount, statusLoop_count]
    simp
  · intro hnil
    rw [hfold, hnil]
    rfl
  · intro t ht
    rw [hfold]
    exact mem_le_foldl_max (knownTimes views) minInt64 t ht
  · intro hne
    rw [hfold]
    match hk : knownTimes views with
    | [] => exact absurd hk hne
    | x :: xs =>
      have hx : minInt64 ≤ x := hrange x (by rw [hk]; exact List.mem_cons_self x xs)
      have h1 : List.foldl max minInt64 (x :: xs) = List.foldl max x xs := by
        rw [List.foldl_cons, max_eq_right hx]
      rw [h1]
      exact foldl_max_mem xs x

theorem statusAggregate_spec_witness :
    (statusAggregate statusViewsExample).ready = statusViewsExample.all shardReadySpec ∧
    statusAggregate statusViewsExample = ⟨false, 5, 200⟩ ∧
    (∀ t ∈ knownTimes statusViewsExample, t ≤ (statusAggregate statusViewsExample).lastEvent) := by
  have h := statusAggregate_spec statusViewsExample (by decide)
  exact ⟨h.1, by decide, h.2.2.2.2.1⟩

theorem setExec_resourceGroupListCfg (env : ScaleEnv) (f g : Str → Str → Bool) :
    (setExec env f g).resourceGroupListCfg = env.resourceGroupListCfg := rfl

theorem setExec_vmScaleSetListCfg (env : ScaleEnv) (f g : Str → Str → Bool) :
    (setExec env f g).vmScaleSetListCfg = env.vmScaleSetListCfg := rfl

theorem setExec_capacity (env : ScaleEnv) (f g : Str → Str → Bool) :
    (setExec env f g).capacity = env.capacity := rfl

theorem setExec_listVMs (env : ScaleEnv) (f g : Str → Str → Bool) :
    (setExec env f g).listVMs = env.listVMs := rfl

theorem setExec_preScaleIn (env : ScaleEnv) (f g : Str → Str → Bool) :
    (setExec env f g).preScaleIn = env.preScaleIn := rfl

theorem setExec_postScaleIn (env : ScaleEnv) (f g : Str → Str → Bool) :
    (setExec env f g).postScaleIn = env.postScaleIn := rfl

theorem dispatchTrace_append (a b : List Event) :
    dispatchTrace (a ++ b) = dispatchTrace a ++ dispatchTrace b := by
  simp [dispatchTrace]

theorem dispatchTrace_exec (u : Event) (hu : u.isLogError = false) (b : Bool) (m : String) :
    dispatchTrace (if b then [u] else [u, Event.logError m]) = [u] := by
  have hl : (Event.logError m).isLogError = true := rfl
  cases b <;> simp [dispatchTrace, List.filter_cons, hu, hl]

theorem dispatchTrace_update (rg v : Str) (cap : Int) (b : Bool) (m : String) :
    dispatchTrace
        (if b then [Event.updateCapacity rg v cap]
          else [Event.updateCapacity rg v cap, Event.logError m]) =
      [Event.updateCapacity rg v cap] :=
  dispatchTrace_exec (Event.updateCapacity rg v cap) rfl b m

theorem dispatchTrace_delete (rg v : Str) (ids : List Str) (b : Bool) (m : String) :
    dispatchTrace
        (if b then [Event.deleteInstances rg v ids]
          else [Event.deleteInstances rg v ids, Event.logError m]) =
      [Event.deleteInstances rg v ids] :=
  dispatchTrace_exec (Event.deleteInstances rg v ids) rfl b m

theorem capacityLoop_congr (env env' : ScaleEnv) (h : env.capacity = env'.capacity)
    (rgs : List Str) :
    ∀ (vs : List Str) (idx : Nat) (acc : Int),
      capacityLoop env rgs idx acc vs = capacityLoop env' rgs idx acc vs := by
  intro vs
  induction vs with
  | nil => intro idx acc; rfl
  | cons v rest ih =>
    intro idx acc
    simp only [capacityLoop, h]
    cases rgs[idx]? with
    | none => rfl
    | some rg =>
      dsimp only
      cases env'.capacity rg v with
      | error e => rfl
      | ok cap =>
        dsimp only
        rw [ih]

theorem collectIds_congr (env env' : ScaleEnv) (h : env.listVMs = env'.listVMs)
    (rgs : List Str) :
    ∀ (vs : List Str) (idx : Nat) (acc : List Str),
      collectIds env rgs idx acc vs = collectIds env' rgs idx acc vs := by
  intro vs
  induction vs with
  | nil => intro idx acc; rfl
  | cons v rest ih =>
    intro idx acc
    simp only [collectIds, h]
    cases rgs[idx]? with
    | none => rfl
    | some rg =>
      dsimp only
      cases env'.listVMs rg v with
      | error e => rfl
      | ok vms =>
        dsimp only
        rw [ih]

theorem scaleOutLoop_exec (env : ScaleEnv) (f g f' g' : Str → Str → Bool)
    (rgs : List Str) (modulo : Int) :
    ∀ (vs : List Str) (reminder : Int) (idx : Nat),
      (scaleOutLoop (setExec env f g) rgs modulo idx reminder vs).1 =
        (scaleOutLoop (setExec env f' g') rgs modulo idx reminder vs).1 ∧
      dispatchTrace (scaleOutLoop (setExec env f g) rgs modulo idx reminder vs).2 =
        dispatchTrace (scaleOutLoop (setExec env f' g') rgs modulo idx reminder vs).2 := by
  intro vs
  induction vs with
  | nil => intro reminder idx; exact ⟨rfl, rfl⟩
  | cons v rest ih =>
    intro reminder idx
    simp only [scaleOutLoop]
    by_cases hc : (if reminder > 0 then modulo + 1 else modulo) > 0
    · rw [if_pos hc, if_pos hc]
      cases rgs[idx]? with
      | none => exact ⟨rfl, rfl⟩
      | some rg =>
        dsimp only
        refine ⟨(ih _ _).1, ?_⟩
        rw [dispatchTrace_append, dispatchTrace_append,
          dispatchTrace_update, dispatchTrace_update, (ih _ _).2]
    · rw [if_neg hc, if_neg hc]
      exact ih _ _

theorem deleteLoop_exec (env : ScaleEnv) (f g f' g' : Str → Str → Bool)
    (rgs : List Str) (buckets : Str → List Str) :
    ∀ (vs : List Str) (idx : Nat),
      (deleteLoop (setExec env f g) rgs buckets idx vs).1 =
        (deleteLoop (setExec env f' g') rgs buckets idx vs).1 ∧
      dispatchTrace (deleteLoop (setExec env f g) rgs buckets idx vs).2 =
        dispatchTrace (deleteLoop (setExec env f' g') rgs buckets idx vs).2 := by
  intro vs
  induction vs with
  | nil => intro idx; exact ⟨rfl, rfl⟩
  | cons v rest ih =>
    intro idx
    simp only [deleteLoop]
    by_cases hb : (buckets v).length > 0
    · rw [if_pos hb, if_pos hb]
      cases rgs[idx]? with
      | none => exact ⟨rfl, rfl⟩
      | some rg =>
        dsimp only
        refine ⟨(ih _).1, ?_⟩
        rw [dispatchTrace_append, dispatchTrace_append,
          dispatchTrace_delete, dispatchTrace_delete, (ih _).2]
    · rw [if_neg hb, if_neg hb]
      exact ih _

theorem scaleInBranch_exec (env : ScaleEnv) (f g f' g' : Str → Str → Bool)
    (rgs vmsses : List Str) (num : Int) :
    (scaleInBranch (setExec env f g) rgs vmsses num).1 =
      (scaleInBranch (setExec env f' g') rgs vmsses num).1 ∧
    dispatchTrace (scaleInBranch (setExec env f g) rgs vmsses num).2 =
      dispatchTrace (scaleInBranch (setExec env f' g') rgs vmsses num).2 := by
  have hcol : collectIds (setExec env f g) rgs 0 [] vmsses =
      collectIds (setExec env f' g') rgs 0 [] vmsses :=
    collectIds_congr (setExec env f g) (setExec env f' g') rfl rgs vmsses 0 []
  simp only [scaleInBranch, hcol, setExec_preScaleIn, setExec_postScaleIn]
  rcases hres : collectIds (setExec env f' g') rgs 0 [] vmsses with ⟨r, evs⟩
  cases r with
  | err m => exact ⟨rfl, rfl⟩
  | panic m => exact ⟨rfl, rfl⟩
  | ok remoteIDs =>
    dsimp only
    cases hpre : env.preScaleIn remoteIDs num with
    | error e => exact ⟨rfl, rfl⟩
    | ok ids =>
      dsimp only
      cases hcor : correlate vmsses (fun _ => []) ids with
      | err m => exact ⟨rfl, rfl⟩
      | panic m => exact ⟨rfl, rfl⟩
      | ok buckets =>
        dsimp only
        have hd := deleteLoop_exec env f g f' g' rgs buckets vmsses 0
        rw [hd.1]
        cases hd1 : (deleteLoop (setExec env f' g') rgs buckets 0 vmsses).1 with
        | panic m =>
          dsimp only
          refine ⟨rfl, ?_⟩
          rw [dispatchTrace_append, dispatchTrace_append, dispatchTrace_append,
            dispatchTrace_append, hd.2]
        | ok u =>
          dsimp only
          cases hpost : env.postScaleIn ids with
          | error e =>
            refine ⟨rfl, ?_⟩
            rw [dispatchTrace_append, dispatchTrace_append, dispatchTrace_append,
              dispatchTrace_append, dispatchTrace_append, dispatchTrace_append, hd.2]
          | ok u' =>
            refine ⟨rfl, ?_⟩
            rw [dispatchTrace_append, dispatchTrace_append, dispatchTrace_append,
              dispatchTrace_append, dispatchTrace_append, dispatchTrace_append, hd.2]
        | err m =>
          dsimp only
          cases hpost : env.postScaleIn ids with
          | error e =>
            refine ⟨rfl, ?_⟩
            rw [dispatchTrace_append, dispatchTrace_append, dispatchTrace_append,
              dispatchTrace_append, dispatchTrace_append, dispatchTrace_append, hd.2]
          | ok u' =>
            refine ⟨rfl, ?_⟩
            rw [dispatchTrace_append, dispatchTrace_append, dispatchTrace_append,
              dispatchTrace_append, dispatchTrace_append, dispatchTrace_append, hd.2]

theorem scaleSwitch_exec (env : ScaleEnv) (f g f' g' : Str → Str → Bool)
    (rgs vmsses : List Str) (total c : Int) :
    (scaleSwitch (setExec env f g) rgs vmsses total c).1 =
      (scaleSwitch (setExec env f' g') rgs vmsses total c).1 ∧
    dispatchTrace (scaleSwitch (setExec env f g) rgs vmsses total c).2 =
      dispatchTrace (scaleSwitch (setExec env f' g') rgs vmsses total c).2 := by
  simp only [scaleSwitch]
  by_cases hout : (calculateScaleDirection total c).2 = "out"
  · rw [if_pos hout, if_pos hout]
    exact scaleOutLoop_exec env f g f' g' rgs
      (goDiv (calculateScaleDirection total c).1 vmsses.length) vmsses
      (goMod (calculateScaleDirection total c).1 vmsses.length) 0
  · rw [if_neg hout, if_neg hout]
    by_cases hin : (calculateScaleDirection total c).2 = "in"
    · rw [if_pos hin, if_pos hin]
      exact scaleInBranch_exec env f g f' g' rgs vmsses (calculateScaleDirection total c).1
    · rw [if_neg hin, if_neg hin]
      exact ⟨rfl, rfl⟩

/-- C1 (amended): the outcomes of the shard executors (resize / delete
request errors and completion-wait errors) have no influence at all on what
`Scale` returns to its caller or on which external calls it dispatches — a
failed executor is only logged, `Scale` still reports success, and every
sibling executor is still dispatched and joined exactly as in a run with no
failures (so there is no fail-fast, but no failure report either). -/
theorem scale_ignores_executor_outcomes (env : ScaleEnv) (f g f' g' : Str → Str → Bool)
    (c : Int) :
    (scale (setExec env f g) c).1 = (scale (setExec env f' g') c).1 ∧
    dispatchTrace (scale (setExec env f g) c).2 =
      dispatchTrace (scale (setExec env f' g') c).2 := by
  by_cases hdry : c = dryRunCount
  · simp [scale, hdry]
  · simp only [scale, if_neg hdry, setExec_resourceGroupListCfg, setExec_vmScaleSetListCfg]
    cases env.resourceGroupListCfg with
    | none => exact ⟨rfl, rfl⟩
    | some rgStr =>
      dsimp only
      cases env.vmScaleSetListCfg with
      | none => exact ⟨rfl, rfl⟩
      | some vmssStr =>
        dsimp only
        have hcap : capacityLoop (setExec env f g) (splitOnChar ',' rgStr) 0 0
              (splitOnChar ',' vmssStr) =
            capacityLoop (setExec env f' g') (splitOnChar ',' rgStr) 0 0
              (splitOnChar ',' vmssStr) :=
          capacityLoop_congr (setExec env f g) (setExec env f' g') rfl _ _ 0 0
        rw [hcap]
        rcases hres : capacityLoop (setExec env f' g') (splitOnChar ',' rgStr) 0 0
          (splitOnChar ',' vmssStr) with ⟨r, evs⟩
        cases r with
        | err m => exact ⟨rfl, rfl⟩
        | panic m => exact ⟨rfl, rfl⟩
        | ok total =>
          dsimp only
          have hs := scaleSwitch_exec env f g f' g' (splitOnChar ',' rgStr)
            (splitOnChar ',' vmssStr) total c
          exact ⟨hs.1, by rw [dispatchTrace_append, dispatchTrace_append, hs.2]⟩

/-- C1 counterexample: with three shards of capacity 2 each and a target of
10, `Scale` grows; the executor of shard `b` fails (the `logError` entry in
the trace), every shard's update was still dispatched, and `Scale`
nevertheless returns success — refuting the claim that the operation reports
failure to its caller when a shard executor fails. -/
theorem scale_executor_failure_not_reported_counterexample :
    scale envC1 10 =
      (GoResult.ok (),
        [Event.getCapacity (str "r1") (str "a"),
          Event.getCapacity (str "r2") (str "b"),
          Event.getCapacity (str "r3") (str "c"),
          Event.updateCapacity (str "r1") (str "a") 4,
          Event.updateCapacity (str "r2") (str "b") 3,
          Event.logError "failed to get the vmss update response",
          Event.updateCapacity (str "r3") (str "c") 3]) ∧
    (scale envC1 10).2.any Event.isLogError = true ∧
    (scale envC1 10).1.isOk = true := by
  refine ⟨by decide, by decide, by decide⟩

theorem getCapacity_phase (e : Event) (h : e.isGetCapacity = true) : e.phase = 0 := by
  cases e <;> simp_all [Event.isGetCapacity, Event.phase]

theorem listInstances_phase (e : Event) (h : e.isListInstances = true) : e.phase = 1 := by
  cases e <;> simp_all [Event.isListInstances, Event.phase]

theorem execEvent_phase (e : Event) (h : e.isDeleteInstances = true ∨ e.isLogError = true) :
    e.phase = 3 := by
  cases e <;> simp_all [Event.isDeleteInstances, Event.isLogError, Event.phase]

theorem outEvent_phase (e : Event) (h : e.isUpdateCapacity = true ∨ e.isLogError = true) :
    e.phase = 3 := by
  cases e <;> simp_all [Event.isUpdateCapacity, Event.isLogError, Event.phase]

theorem getCapacity_not_drain (e : Event) (h : e.isGetCapacity = true) :
    e.isPreDrain = false ∧ e.isDeleteInstances = false ∧ e.isPostDrain = false := by
  cases e <;> simp_all [Event.isGetCapacity, Event.isPreDrain, Event.isDeleteInstances,
    Event.isPostDrain]

theorem listInstances_not_drain (e : Event) (h : e.isListInstances = true) :
    e.isPreDrain = false ∧ e.isDeleteInstances = false ∧ e.isPostDrain = false := by
  cases e <;> simp_all [Event.isListInstances, Event.isPreDrain, Event.isDeleteInstances,
    Event.isPostDrain]

theorem outEvent_not_drain (e : Event) (h : e.isUpdateCapacity = true ∨ e.isLogError = true) :
    e.isPreDrain = false ∧ e.isDeleteInstances = false ∧ e.isPostDrain = false := by
  cases e <;> simp_all [Event.isUpdateCapacity, Event.isLogError, Event.isPreDrain,
    Event.isDeleteInstances, Event.isPostDrain]

theorem capacityLoop_events (env : ScaleEnv) (rgs : List Str) :
    ∀ (vs : List Str) (idx : Nat) (acc : Int),
      ∀ e ∈ (capacityLoop env rgs idx acc vs).2, e.isGetCapacity = true := by
  intro vs
  induction vs with
  | nil => intro idx acc e he; cases he
  | cons v rest ih =>
    intro idx acc e he
    rw [capacityLoop] at he
    rcases hrg : rgs[idx]? with _ | rg <;> rw [hrg] at he <;> dsimp only at he
    · cases he
    · rcases hcap : env.capacity rg v with e' | cap <;> rw [hcap] at he <;> dsimp only at he
      · rcases List.mem_singleton.mp he with rfl
        rfl
      · rcases List.mem_cons.mp he with rfl | hmem
        · rfl
        · exact ih (idx + 1) (acc + cap) e hmem

theorem collectIds_events (env : ScaleEnv) (rgs : List Str) :
    ∀ (vs : List Str) (idx : Nat) (acc : List Str),
      ∀ e ∈ (collectIds env rgs idx acc vs).2, e.isListInstances = true := by
  intro vs
  induction vs with
  | nil => intro idx acc e he; cases he
  | cons v rest ih =>
    intro idx acc e he
    rw [collectIds] at he
    rcases hrg : rgs[idx]? with _ | rg <;> rw [hrg] at he <;> dsimp only at he
    · cases he
    · rcases hlv : env.listVMs rg v with e' | vms <;> rw [hlv] at he <;> dsimp only at he
      · rcases List.mem_singleton.mp he with rfl
        rfl
      · rcases List.mem_cons.mp he with rfl | hmem
        · rfl
        · exact ih (idx + 1) (getRemoteIds v vms acc) e hmem

theorem deleteLoop_events (env : ScaleEnv) (rgs : List Str) (buckets : Str → List Str) :
    ∀ (vs : List Str) (idx : Nat),
      ∀ e ∈ (deleteLoop env rgs buckets idx vs).2,
        e.isDeleteInstances = true ∨ e.isLogError = true := by
  intro vs
  induction vs with
  | nil => intro idx e he; cases he
  | cons v rest ih =>
    intro idx e he
    rw [deleteLoop] at he
    by_cases hb : (buckets v).length > 0
    · rw [if_pos hb] at he
      rcases hrg : rgs[idx]? with _ | rg <;> rw [hrg] at he <;> try dsimp only at he
      · cases he
      · by_cases hd : env.deleteOk rg v <;> simp only [hd, if_true, if_false] at he <;>
          try dsimp only at he
        · rcases List.mem_append.mp he with hm | hm
          · rcases List.mem_singleton.mp hm with rfl
            exact Or.inl rfl
          · exact ih (idx + 1) e hm
        · rcases List.mem_append.mp he with hm | hm
          · rcases List.mem_cons.mp hm with rfl | hm'
            · exact Or.inl rfl
            · rcases List.mem_singleton.mp hm' with rfl
              exact Or.inr rfl
          · exact ih (idx + 1) e hm
    · rw [if_neg hb] at he
      exact ih (idx + 1) e he

theorem scaleOutLoop_events (env : ScaleEnv) (rgs : List Str) (modulo : Int) :
    ∀ (vs : List Str) (reminder : Int) (idx : Nat),
      ∀ e ∈ (scaleOutLoop env rgs modulo idx reminder vs).2,
        e.isUpdateCapacity = true ∨ e.isLogError = true := by
  intro vs
  induction vs with
  | nil => intro reminder idx e he; cases he
  | cons v rest ih =>
    intro reminder idx e he
    rw [scaleOutLoop] at he
    by_cases hc : (if reminder > 0 then modulo + 1 else modulo) > 0
    · rw [if_pos hc] at he
      rcases hrg : rgs[idx]? with _ | rg <;> rw [hrg] at he <;> try dsimp only at he
      · cases he
      · by_cases hu : env.updateOk rg v <;> simp only [hu, if_true, if_false] at he <;>
          try dsimp only at he
        · rcases List.mem_append.mp he with hm | hm
          · rcases List.mem_singleton.mp hm with rfl
            exact Or.inl rfl
          · exact ih _ (idx + 1) e hm
        · rcases List.mem_append.mp he with hm | hm
          · rcases List.mem_cons.mp hm with rfl | hm'
            · exact Or.inl rfl
            · rcases List.mem_singleton.mp hm' with rfl
              exact Or.inr rfl
          · exact ih _ (idx + 1) e hm
    · rw [if_neg hc] at he
      exact ih _ (idx + 1) e he

theorem sorted_phase_of_const (l : List Event) (k : Nat) (h : ∀ e ∈ l, e.phase = k) :
    List.Sorted (fun a b => a ≤ b) (l.map Event.phase) := by
  induction l with
  | nil => simp
  | cons e rest ih =>
    rw [List.map_cons, List.sorted_cons]
    refine ⟨?_, ih (fun e' he' => h e' (List.mem_cons_of_mem e he'))⟩
    intro b hb
    rcases List.mem_map.mp hb with ⟨e', he', rfl⟩
    rw [h e (List.mem_cons_self e rest), h e' (List.mem_cons_of_mem e he')]

theorem sorted_phase_append (l₁ l₂ : List Event) (k : Nat)
    (h₁ : List.Sorted (fun a b => a ≤ b) (l₁.map Event.phase))
    (h₂ : List.Sorted (fun a b => a ≤ b) (l₂.map Event.phase))
    (hb₁ : ∀ e ∈ l₁, e.phase ≤ k) (hb₂ : ∀ e ∈ l₂, k ≤ e.phase) :
    List.Sorted (fun a b => a ≤ b) ((l₁ ++ l₂).map Event.phase) := by
  rw [List.map_append]
  refine List.pairwise_append.mpr ⟨h₁, h₂, ?_⟩
  intro a ha b hb
  rcases List.mem_map.mp ha with ⟨e₁, he₁, rfl⟩
  rcases List.mem_map.mp hb with ⟨e₂, he₂, rfl⟩
  exact le_trans (hb₁ e₁ he₁) (hb₂ e₂ he₂)

theorem scaleInBranch_sorted (env : ScaleEnv) (rgs vmsses : List Str) (num : Int) :
    List.Sorted (fun a b => a ≤ b) ((scaleInBranch env rgs vmsses num).2.map Event.phase) := by
  rcases hres : collectIds env rgs 0 [] vmsses with ⟨r, evs⟩
  have hevs : ∀ e ∈ evs, e.phase = 1 := by
    intro e he
    have h := collectIds_events env rgs vmsses 0 []
    rw [hres] at h
    exact listInstances_phase e (h e he)
  have hsevs : List.Sorted (fun a b => a ≤ b) (evs.map Event.phase) :=
    sorted_phase_of_const evs 1 hevs
  cases r with
  | err m => simp only [scaleInBranch, hres]; exact hsevs
  | panic m => simp only [scaleInBranch, hres]; exact hsevs
  | ok remoteIDs =>
    have hpre1 : List.Sorted (fun a b => a ≤ b)
        ((evs ++ [Event.preDrain remoteIDs num]).map Event.phase) := by
      refine sorted_phase_append evs [Event.preDrain remoteIDs num] 2 hsevs
        (sorted_phase_of_const _ 2 ?_) (fun e he => by rw [hevs e he]; omega)
        (fun e he => ?_)
      · intro e he
        rcases List.mem_singleton.mp he with rfl
        rfl
      · rcases List.mem_singleton.mp he with rfl
        exact le_rfl
    have hpre1_le : ∀ e ∈ evs ++ [Event.preDrain remoteIDs num], e.phase ≤ 3 := by
      intro e he
      rcases List.mem_append.mp he with hm | hm
      · rw [hevs e hm]; omega
      · rcases List.mem_singleton.mp hm with rfl
        simp [Event.phase]
    simp only [scaleInBranch, hres]
    cases hpre : env.preScaleIn remoteIDs num with
    | error e => exact hpre1
    | ok ids =>
      dsimp only
      cases hcor : correlate vmsses (fun _ => []) ids with
      | err m => exact hpre1
      | panic m => exact hpre1
      | ok buckets =>
        dsimp only
        have hd3 : ∀ e ∈ (deleteLoop env rgs buckets 0 vmsses).2, e.phase = 3 := by
          intro e he
          exact execEvent_phase e (deleteLoop_events env rgs buckets vmsses 0 e he)
        have hdel : List.Sorted (fun a b => a ≤ b)
            ((evs ++ [Event.preDrain remoteIDs num] ++
              (deleteLoop env rgs buckets 0 vmsses).2).map Event.phase) :=
          sorted_phase_append _ _ 3 hpre1 (sorted_phase_of_const _ 3 hd3) hpre1_le
            (fun e he => by rw [hd3 e he])
        cases hd1 : (deleteLoop env rgs buckets 0 vmsses).1 with
        | panic m => exact hdel
        | ok u =>
          dsimp only
          have hfull : List.Sorted (fun a b => a ≤ b)
              ((evs ++ [Event.preDrain remoteIDs num] ++
                (deleteLoop env rgs buckets 0 vmsses).2 ++ [Event.postDrain ids]).map
                Event.phase) := by
            refine sorted_phase_append _ _ 4 hdel (sorted_phase_of_const _ 4 ?_) ?_ ?_
            · intro e he
              rcases List.mem_singleton.mp he with rfl
              rfl
            · intro e he
              rcases List.mem_append.mp he with hm | hm
              · exact le_trans (hpre1_le e hm) (by omega)
              · rw [hd3 e hm]; omega
            · intro e he
              rcases List.mem_singleton.mp he with rfl
              exact le_rfl
          cases hpost : env.postScaleIn ids with
          | error e' => exact hfull
          | ok u' => exact hfull
        | err m =>
          dsimp only
          have hfull : List.Sorted (fun a b => a ≤ b)
              ((evs ++ [Event.preDrain remoteIDs num] ++
                (deleteLoop env rgs buckets 0 vmsses).2 ++ [Event.postDrain ids]).map
                Event.phase) := by
            refine sorted_phase_append _ _ 4 hdel (sorted_phase_of_const _ 4 ?_) ?_ ?_
            · intro e he
              rcases List.mem_singleton.mp he with rfl
              rfl
            · intro e he
              rcases List.mem_append.mp he with hm | hm
              · exact le_trans (hpre1_le e hm) (by omega)
              · rw [hd3 e hm]; omega
            · intro e he
              rcases List.mem_singleton.mp he with rfl
              exact le_rfl
          cases hpost : env.postScaleIn ids with
          | error e' => exact hfull
          | ok u' => exact hfull

theorem scaleSwitch_sorted (env : ScaleEnv) (rgs vmsses : List Str) (total c : Int) :
    List.Sorted (fun a b => a ≤ b)
      ((scaleSwitch env rgs vmsses total c).2.map Event.phase) := by
  simp only [scaleSwitch]
  by_cases hout : (calculateScaleDirection total c).2 = "out"
  · rw [if_pos hout]
    refine sorted_phase_of_const _ 3 ?_
    intro e he
    exact outEvent_phase e (scaleOutLoop_events env rgs _ vmsses _ 0 e he)
  · rw [if_neg hout]
    by_cases hin : (calculateScaleDirection total c).2 = "in"
    · rw [if_pos hin]
      exact scaleInBranch_sorted env rgs vmsses (calculateScaleDirection total c).1
    · rw [if_neg hin]
      simp

theorem scaleInBranch_collect_fail (env : ScaleEnv) (rgs vmsses : List Str) (num : Int)
    (hcol : (collectIds env rgs 0 [] vmsses).1.isOk = false) :
    ∀ e ∈ (scaleInBranch env rgs vmsses num).2, e.isListInstances = true := by
  intro e he
  rcases hres : collectIds env rgs 0 [] vmsses with ⟨r, evs⟩
  have hevs : ∀ e ∈ evs, e.isListInstances = true := by
    intro e' he'
    have h := collectIds_events env rgs vmsses 0 []
    rw [hres] at h
    exact h e' he'
  rw [hres] at hcol
  cases r with
  | err m =>
    simp only [scaleInBranch, hres] at he
    exact hevs e he
  | panic m =>
    simp only [scaleInBranch, hres] at he
    exact hevs e he
  | ok remoteIDs => cases hcol

theorem scaleInBranch_hook_fail (env : ScaleEnv) (rgs vmsses : List Str) (num : Int)
    (hpre : ∀ ids n, exceptIsOk (env.preScaleIn ids n) = false) :
    ∀ e ∈ (scaleInBranch env rgs vmsses num).2,
      e.isDeleteInstances = false ∧ e.isPostDrain = false := by
  intro e he
  rcases hres : collectIds env rgs 0 [] vmsses with ⟨r, evs⟩
  have hevs : ∀ e ∈ evs, e.isListInstances = true := by
    intro e' he'
    have h := collectIds_events env rgs vmsses 0 []
    rw [hres] at h
    exact h e' he'
  cases r with
  | err m =>
    simp only [scaleInBranch, hres] at he
    exact ⟨(listInstances_not_drain e (hevs e he)).2.1, (listInstances_not_drain e (hevs e he)).2.2⟩
  | panic m =>
    simp only [scaleInBranch, hres] at he
    exact ⟨(listInstances_not_drain e (hevs e he)).2.1, (listInstances_not_drain e (hevs e he)).2.2⟩
  | ok remoteIDs =>
    simp only [scaleInBranch, hres] at he
    cases hp : env.preScaleIn remoteIDs num with
    | ok ids =>
      have := hpre remoteIDs num
      rw [hp] at this
      cases this
    | error e' =>
      rw [hp] at he
      dsimp only at he
      rcases List.mem_append.mp he with hm | hm
      · exact ⟨(listInstances_not_drain e (hevs e hm)).2.1,
          (listInstances_not_drain e (hevs e hm)).2.2⟩
      · rcases List.mem_singleton.mp hm with rfl
        exact ⟨rfl, rfl⟩

theorem scale_trace_mem (env : ScaleEnv) (c : Int) (e : Event)
    (he : e ∈ (scale env c).2) :
    e.isGetCapacity = true ∨
      ∃ rgStr vmssStr total,
        env.resourceGroupListCfg = some rgStr ∧ env.vmScaleSetListCfg = some vmssStr ∧
        e ∈ (scaleSwitch env (splitOnChar ',' rgStr) (splitOnChar ',' vmssStr) total c).2 := by
  by_cases hdry : c = dryRunCount
  · rw [scale, if_pos hdry] at he
    cases he
  · rw [scale, if_neg hdry] at he
    rcases hrg : env.resourceGroupListCfg with _ | rgStr <;> rw [hrg] at he
    · cases he
    · dsimp only at he
      rcases hvm : env.vmScaleSetListCfg with _ | vmssStr <;> rw [hvm] at he
      · cases he
      · dsimp only at he
        rcases hres : capacityLoop env (splitOnChar ',' rgStr) 0 0
          (splitOnChar ',' vmssStr) with ⟨r, evs⟩
        rw [hres] at he
        have hevs : ∀ e' ∈ evs, e'.isGetCapacity = true := by
          intro e' he'
          have h := capacityLoop_events env (splitOnChar ',' rgStr)
            (splitOnChar ',' vmssStr) 0 0
          rw [hres] at h
          exact h e' he'
        cases r with
        | err m => exact Or.inl (hevs e he)
        | panic m => exact Or.inl (hevs e he)
        | ok total =>
          dsimp only at he
          rcases List.mem_append.mp he with hm | hm
          · exact Or.inl (hevs e hm)
          · exact Or.inr ⟨rgStr, vmssStr, total, rfl, rfl, hm⟩

theorem scale_sorted (env : ScaleEnv) (c : Int) :
    List.Sorted (fun a b => a ≤ b) ((scale env c).2.map Event.phase) := by
  by_cases hdry : c = dryRunCount
  · rw [scale, if_pos hdry]
    simp
  · rw [scale, if_neg hdry]
    rcases hrg : env.resourceGroupListCfg with _ | rgStr
    · simp
    · dsimp only
      rcases hvm : env.vmScaleSetListCfg with _ | vmssStr
      · simp
      · dsimp only
        rcases hres : capacityLoop env (splitOnChar ',' rgStr) 0 0
          (splitOnChar ',' vmssStr) with ⟨r, evs⟩
        have hevs : ∀ e' ∈ evs, e'.phase = 0 := by
          intro e' he'
          have h := capacityLoop_events env (splitOnChar ',' rgStr)
            (splitOnChar ',' vmssStr) 0 0
          rw [hres] at h
          exact getCapacity_phase e' (h e' he')
        cases r with
        | err m => exact sorted_phase_of_const evs 0 hevs
        | panic m => exact sorted_phase_of_const evs 0 hevs
        | ok total =>
          dsimp only
          refine sorted_phase_append evs _ 0 (sorted_phase_of_const evs 0 hevs)
            (scaleSwitch_sorted env _ _ total c) (fun e' he' => by rw [hevs e' he'])
            (fun e' _ => Nat.zero_le _)

theorem scaleSwitch_collect_fail (env : ScaleEnv) (rgs vmsses : List Str) (total c : Int)
    (hcol : (collectIds env rgs 0 [] vmsses).1.isOk = false) :
    ∀ e ∈ (scaleSwitch env rgs vmsses total c).2,
      e.isPreDrain = false ∧ e.isDeleteInstances = false ∧ e.isPostDrain = false := by
  intro e he
  rw [scaleSwitch] at he
  by_cases hout : (calculateScaleDirection total c).2 = "out"
  · rw [if_pos hout] at he
    exact outEvent_not_drain e (scaleOutLoop_events env rgs _ vmsses _ 0 e he)
  · rw [if_neg hout] at he
    by_cases hin : (calculateScaleDirection total c).2 = "in"
    · rw [if_pos hin] at he
      exact listInstances_not_drain e
        (scaleInBranch_collect_fail env rgs vmsses _ hcol e he)
    · rw [if_neg hin] at he
      cases he

theorem scaleSwitch_hook_fail (env : ScaleEnv) (rgs vmsses : List Str) (total c : Int)
    (hpre : ∀ ids n, exceptIsOk (env.preScaleIn ids n) = false) :
    ∀ e ∈ (scaleSwitch env rgs vmsses total c).2,
      e.isDeleteInstances = false ∧ e.isPostDrain = false := by
  intro e he
  rw [scaleSwitch] at he
  by_cases hout : (calculateScaleDirection total c).2 = "out"
  · rw [if_pos hout] at he
    have h := outEvent_not_drain e (scaleOutLoop_events env rgs _ vmsses _ 0 e he)
    exact ⟨h.2.1, h.2.2⟩
  · rw [if_neg hout] at he
    by_cases hin : (calculateScaleDirection total c).2 = "in"
    · rw [if_pos hin] at he
      exact scaleInBranch_hook_fail env rgs vmsses _ hpre e he
    · rw [if_neg hin] at he
      cases he

/-- C5: the call trace of `Scale` is ordered by phase — capacity queries,
then (for a shrink) all per-shard instance listings, then the single
pre-drain hook call, then the delete dispatches (joined before proceeding),
then the post-drain hook call — and never goes backwards; moreover, whenever
the run's id-collection loop errors (any shard's listing fails, however many
earlier shards listed successfully), the operation aborts before the
pre-drain hook and before any delete, and if the pre-drain hook fails the
operation aborts before any delete and before the post-drain hook. -/
theorem scale_scaleIn_ordering (env : ScaleEnv) (c : Int) :
    List.Sorted (fun a b => a ≤ b) ((scale env c).2.map Event.phase) ∧
    (∀ rgStr vmssStr,
      env.resourceGroupListCfg = some rgStr →
      env.vmScaleSetListCfg = some vmssStr →
      (collectIds env (splitOnChar ',' rgStr) 0 []
        (splitOnChar ',' vmssStr)).1.isOk = false →
      ∀ e ∈ (scale env c).2,
        e.isPreDrain = false ∧ e.isDeleteInstances = false ∧ e.isPostDrain = false) ∧
    ((∀ ids n, exceptIsOk (env.preScaleIn ids n) = false) →
      ∀ e ∈ (scale env c).2, e.isDeleteInstances = false ∧ e.isPostDrain = false) := by
  refine ⟨scale_sorted env c, ?_, ?_⟩
  · intro rgStr vmssStr hrg hvm hcol e he
    rcases scale_trace_mem env c e he with h | ⟨rgStr', vmssStr', total, hrg', hvm', hm⟩
    · exact getCapacity_not_drain e h
    · have hr : rgStr' = rgStr := by
        rw [hrg] at hrg'
        exact (Option.some.injEq _ _ ▸ hrg').symm
      have hv : vmssStr' = vmssStr := by
        rw [hvm] at hvm'
        exact (Option.some.injEq _ _ ▸ hvm').symm
      subst hr
      subst hv
      exact scaleSwitch_collect_fail env _ _ total c hcol e hm
  · intro hpre e he
    rcases scale_trace_mem env c e he with h | ⟨rgStr, vmssStr, total, _, _, hm⟩
    · have h' := getCapacity_not_drain e h
      exact ⟨h'.2.1, h'.2.2⟩
    · exact scaleSwitch_hook_fail env _ _ total c hpre e hm

theorem scale_scaleIn_ordering_witness :
    List.Sorted (fun a b => a ≤ b) ((scale envLateFail 3).2.map Event.phase) ∧
    (∀ e ∈ (scale envLateFail 3).2,
      e.isPreDrain = false ∧ e.isDeleteInstances = false ∧ e.isPostDrain = false) ∧
    (∀ e ∈ (scale envLateFail 3).2, e.isDeleteInstances = false ∧ e.isPostDrain = false) := by
  have h := scale_scaleIn_ordering envLateFail 3
  exact ⟨h.1, h.2.1 (str "r1,r2") (str "a,b") rfl rfl (by decide), h.2.2 (fun ids n => rfl)⟩

theorem correlate_malformed (vmsses : List Str) :
    ∀ (ids : List Str) (b : Str → List Str),
      (∃ id ∈ ids, lastIndexOfChar '_' id = none) →
      correlate vmsses b ids = .err "failed to get instance-id from remoteId" := by
  intro ids
  induction ids with
  | nil =>
    intro b h
    rcases h with ⟨id, hmem, _⟩
    cases hmem
  | cons node rest ih =>
    intro b h
    rw [correlate]
    rcases hsplit : splitRemoteId node with _ | pr
    · rfl
    · rcases h with ⟨id, hmem, hnone⟩
      rcases List.mem_cons.mp hmem with rfl | hmem'
      · rw [splitRemoteId, hnone] at hsplit
        cases hsplit
      · exact ih _ ⟨id, hmem', hnone⟩

theorem scaleInBranch_malformed (env : ScaleEnv) (rgs vmsses : List Str) (num : Int)
    (hhook : ∀ ids n, ∃ cleared, env.preScaleIn ids n = Except.ok cleared ∧
      ∃ id ∈ cleared, lastIndexOfChar '_' id = none) :
    (∀ e ∈ (scaleInBranch env rgs vmsses num).2,
      e.isDeleteInstances = false ∧ e.isPostDrain = false) ∧
    ((scaleInBranch env rgs vmsses num).2.any Event.isPreDrain = true →
      (scaleInBranch env rgs vmsses num).1 =
        GoResult.err "failed to get instance-id from remoteId") := by
  rcases hres : collectIds env rgs 0 [] vmsses with ⟨r, evs⟩
  have hevs : ∀ e ∈ evs, e.isListInstances = true := by
    intro e' he'
    have h := collectIds_events env rgs vmsses 0 []
    rw [hres] at h
    exact h e' he'
  cases r with
  | err m =>
    simp only [scaleInBranch, hres]
    refine ⟨fun e he => ⟨(listInstances_not_drain e (hevs e he)).2.1,
      (listInstances_not_drain e (hevs e he)).2.2⟩, ?_⟩
    intro hany
    rcases List.any_eq_true.mp hany with ⟨e, hmem, hp⟩
    rw [(listInstances_not_drain e (hevs e hmem)).1] at hp
    cases hp
  | panic m =>
    simp only [scaleInBranch, hres]
    refine ⟨fun e he => ⟨(listInstances_not_drain e (hevs e he)).2.1,
      (listInstances_not_drain e (hevs e he)).2.2⟩, ?_⟩
    intro hany
    rcases List.any_eq_true.mp hany with ⟨e, hmem, hp⟩
    rw [(listInstances_not_drain e (hevs e hmem)).1] at hp
    cases hp
  | ok remoteIDs =>
    rcases hhook remoteIDs num with ⟨cleared, hok, hmal⟩
    have hcor : correlate vmsses (fun _ => []) cleared =
        .err "failed to get instance-id from remoteId" :=
      correlate_malformed vmsses cleared _ hmal
    simp only [scaleInBranch, hres, hok, hcor]
    refine ⟨?_, fun _ => trivial⟩
    intro e he
    rcases List.mem_append.mp he with hm | hm
    · exact ⟨(listInstances_not_drain e (hevs e hm)).2.1,
        (listInstances_not_drain e (hevs e hm)).2.2⟩
    · rcases List.mem_singleton.mp hm with rfl
      exact ⟨rfl, rfl⟩

theorem scaleSwitch_malformed (env : ScaleEnv) (rgs vmsses : List Str) (total c : Int)
    (hhook : ∀ ids n, ∃ cleared, env.preScaleIn ids n = Except.ok cleared ∧
      ∃ id ∈ cleared, lastIndexOfChar '_' id = none) :
    (∀ e ∈ (scaleSwitch env rgs vmsses total c).2,
      e.isDeleteInstances = false ∧ e.isPostDrain = false) ∧
    ((scaleSwitch env rgs vmsses total c).2.any Event.isPreDrain = true →
      (scaleSwitch env rgs vmsses total c).1 =
        GoResult.err "failed to get instance-id from remoteId") := by
  rw [scaleSwitch]
  by_cases hout : (calculateScaleDirection total c).2 = "out"
  · rw [if_pos hout]
    refine ⟨fun e he => ?_, fun hany => ?_⟩
    · have h := outEvent_not_drain e (scaleOutLoop_events env rgs _ vmsses _ 0 e he)
      exact ⟨h.2.1, h.2.2⟩
    · rcases List.any_eq_true.mp hany with ⟨e, hmem, hp⟩
      rw [(outEvent_not_drain e (scaleOutLoop_events env rgs _ vmsses _ 0 e hmem)).1] at hp
      cases hp
  · rw [if_neg hout]
    by_cases hin : (calculateScaleDirection total c).2 = "in"
    · rw [if_pos hin]
      exact scaleInBranch_malformed env rgs vmsses _ hhook
    · rw [if_neg hin]
      exact ⟨fun e he => absurd he (List.not_mem_nil e), fun hany => by cases hany⟩

/-- C6: when the pre-drain hook returns an identifier containing no `_`, the
whole scale-in aborts with the `MalformedID` error
(`"failed to get instance-id from remoteId"`) before any delete call is
issued — the trace contains no delete and no post-drain call, and whenever
the pre-drain hook was actually reached (a `preDrain` event is in the
trace), the error returned for the whole operation is exactly that one. -/
theorem scale_malformed_id_aborts (env : ScaleEnv) (c : Int)
    (hhook : ∀ ids n, ∃ cleared, env.preScaleIn ids n = Except.ok cleared ∧
      ∃ id ∈ cleared, lastIndexOfChar '_' id = none) :
    (∀ e ∈ (scale env c).2, e.isDeleteInstances = false ∧ e.isPostDrain = false) ∧
    ((scale env c).2.any Event.isPreDrain = true →
      (scale env c).1 = GoResult.err "failed to get instance-id from remoteId") := by
  by_cases hdry : c = dryRunCount
  · rw [scale, if_pos hdry]
    exact ⟨fun e he => absurd he (List.not_mem_nil e), fun hany => by cases hany⟩
  · rw [scale, if_neg hdry]
    rcases hrg : env.resourceGroupListCfg with _ | rgStr
    · exact ⟨fun e he => absurd he (List.not_mem_nil e), fun hany => by cases hany⟩
    · dsimp only
      rcases hvm : env.vmScaleSetListCfg with _ | vmssStr
      · exact ⟨fun e he => absurd he (List.not_mem_nil e), fun hany => by cases hany⟩
      · dsimp only
        rcases hres : capacityLoop env (splitOnChar ',' rgStr) 0 0
          (splitOnChar ',' vmssStr) with ⟨r, evs⟩
        have hevs : ∀ e' ∈ evs, e'.isGetCapacity = true := by
          intro e' he'
          have h := capacityLoop_events env (splitOnChar ',' rgStr)
            (splitOnChar ',' vmssStr) 0 0
          rw [hres] at h
          exact h e' he'
        cases r with
        | err m =>
          refine ⟨fun e he => ?_, fun hany => ?_⟩
          · have h := getCapacity_not_drain e (hevs e he)
            exact ⟨h.2.1, h.2.2⟩
          · rcases List.any_eq_true.mp hany with ⟨e, hmem, hp⟩
            rw [(getCapacity_not_drain e (hevs e hmem)).1] at hp
            cases hp
        | panic m =>
          refine ⟨fun e he => ?_, fun hany => ?_⟩
          · have h := getCapacity_not_drain e (hevs e he)
            exact ⟨h.2.1, h.2.2⟩
          · rcases List.any_eq_true.mp hany with ⟨e, hmem, hp⟩
            rw [(getCapacity_not_drain e (hevs e hmem)).1] at hp
            cases hp
        | ok total =>
          dsimp only
          have hsw := scaleSwitch_malformed env (splitOnChar ',' rgStr)
            (splitOnChar ',' vmssStr) total c hhook
          refine ⟨fun e he => ?_, fun hany => ?_⟩
          · rcases List.mem_append.mp he with hm | hm
            · have h := getCapacity_not_drain e (hevs e hm)
              exact ⟨h.2.1, h.2.2⟩
            · exact hsw.1 e hm
          · rw [List.any_append] at hany
            rcases Bool.or_eq_true_iff.mp hany with h | h
            · rcases List.any_eq_true.mp h with ⟨e, hmem, hp⟩
              rw [(getCapacity_not_drain e (hevs e hmem)).1] at hp
              cases hp
            · exact hsw.2 h

theorem scale_malformed_id_aborts_witness :
    (scale envC6 1).1 = GoResult.err "failed to get instance-id from remoteId" ∧
    (∀ e ∈ (scale envC6 1).2, e.isDeleteInstances = false ∧ e.isPostDrain = false) := by
  have h := scale_malformed_id_aborts envC6 1
    (fun ids n => ⟨[str "abc"], rfl, str "abc", by decide, rfl⟩)
  exact ⟨h.2 (by decide), h.1⟩

theorem capacityLoop_overrun (env : ScaleEnv) (rgs : List Str)
    (hcap : ∀ rg v, exceptIsOk (env.capacity rg v) = true) :
    ∀ (vs : List Str) (idx : Nat) (acc : Int), idx ≤ rgs.length →
      rgs.length < idx + vs.length →
      (capacityLoop env rgs idx acc vs).1 = GoResult.panic "index out of range" := by
  intro vs
  induction vs with
  | nil =>
    intro idx acc hle hlt
    simp at hlt
    omega
  | cons v rest ih =>
    intro idx acc hle hlt
    rw [capacityLoop]
    by_cases hidx : idx < rgs.length
    · rw [List.getElem?_eq_getElem hidx]
      dsimp only
      rcases hcv : env.capacity rgs[idx] v with e' | cap
      · have := hcap rgs[idx] v
        rw [hcv] at this
        cases this
      · dsimp only
        refine ih (idx + 1) (acc + cap) (by omega) ?_
        simp at hlt
        omega
    · have hnone : rgs[idx]? = none := List.getElem?_eq_none (by omega)
      rw [hnone]

/-- C9 counterexample: with one resource scope (`"r1"`) and two shard names
(`"a,b"`), `Scale` does not return any (`ConfigError`-style) error — it
panics with an index-out-of-range while querying the second shard's
capacity, refuting the claim that mismatched-length lists fail with a
`ConfigError` and that the scope list is never indexed past its end. -/
theorem scale_length_mismatch_counterexample :
    scale envC9 10 =
      (GoResult.panic "index out of range",
        [Event.getCapacity (str "r1") (str "a")]) ∧
    (scale envC9 10).1.isErr = false := by
  exact ⟨by decide, by decide⟩

/-- C9 (amended): mismatched list lengths are not validated.  When the
shard-name list is strictly longer than the resource-scope list (and the
capacity queries themselves succeed), `Scale` panics with index-out-of-range
during the capacity-query loop — before any mutating call, the trace holding
only capacity queries — rather than returning a `ConfigError`.  A scope list
longer than the shard list is silently tolerated. -/
theorem scale_length_mismatch_panics (env : ScaleEnv) (c : Int) (rgStr vmssStr : Str)
    (hdry : c ≠ dryRunCount)
    (hrg : env.resourceGroupListCfg = some rgStr)
    (hvm : env.vmScaleSetListCfg = some vmssStr)
    (hlen : (splitOnChar ',' rgStr).length < (splitOnChar ',' vmssStr).length)
    (hcap : ∀ rg v, exceptIsOk (env.capacity rg v) = true) :
    (scale env c).1 = GoResult.panic "index out of range" ∧
    ∀ e ∈ (scale env c).2, e.isGetCapacity = true := by
  have hpanic := capacityLoop_overrun env (splitOnChar ',' rgStr) hcap
    (splitOnChar ',' vmssStr) 0 0 (Nat.zero_le _) (by omega)
  rw [scale, if_neg hdry, hrg]
  dsimp only
  rw [hvm]
  dsimp only
  rcases hres : capacityLoop env (splitOnChar ',' rgStr) 0 0
    (splitOnChar ',' vmssStr) with ⟨r, evs⟩
  have hevs : ∀ e' ∈ evs, e'.isGetCapacity = true := by
    intro e' he'
    have h := capacityLoop_events env (splitOnChar ',' rgStr) (splitOnChar ',' vmssStr) 0 0
    rw [hres] at h
    exact h e' he'
  rw [hres] at hpanic
  cases r with
  | err m => cases hpanic
  | ok total => cases hpanic
  | panic m =>
    cases hpanic
    exact ⟨rfl, hevs⟩

theorem scale_length_mismatch_panics_witness :
    (scale envC9 10).1 = GoResult.panic "index out of range" ∧
    ∀ e ∈ (scale envC9 10).2, e.isGetCapacity = true := by
  exact scale_length_mismatch_panics envC9 10 (str "r1") (str "a,b") (by decide) rfl rfl
    (by decide) (fun rg v => rfl)

theorem foldl_buckets_id (pre suf : Str) (vmsses : List Str) :
    ∀ (b : Str → List Str), (∀ v ∈ vmsses, eqFold pre v = false) →
      vmsses.foldl
        (fun b v => if eqFold pre v then fun k => if k = v then b k ++ [suf] else b k else b)
        b = b := by
  induction vmsses with
  | nil => intro b _; rfl
  | cons v rest ih =>
    intro b h
    rw [List.foldl_cons, if_neg (by rw [h v (List.mem_cons_self v rest)]; exact Bool.false_ne_true)]
    exact ih b (fun v' hv' => h v' (List.mem_cons_of_mem v hv'))

/-- C10: during scale-in correlation, a cleared identifier that does contain
a `_` but whose prefix (before the last `_`) matches none of the configured
shard names case-insensitively is silently skipped — it changes neither the
outcome nor the buckets of the correlation (so no delete is issued for it
and no error is raised), and the operation can still succeed overall (see
the witness, where a run containing such an identifier returns success). -/
theorem correlate_unknown_shard_skipped (vmsses : List Str) (b : Str → List Str)
    (node : Str) (rest : List Str) (pre suf : Str)
    (hsplit : splitRemoteId node = some (pre, suf))
    (hno : ∀ v ∈ vmsses, eqFold pre v = false) :
    correlate vmsses b (node :: rest) = correlate vmsses b rest := by
  rw [correlate, hsplit]
  dsimp only
  rw [foldl_buckets_id pre suf vmsses b hno]

theorem correlate_unknown_shard_skipped_witness :
    correlate [str "web"] (fun _ => []) [str "zzz_9", str "web_1"] =
      correlate [str "web"] (fun _ => []) [str "web_1"] ∧
    scale envC10 1 =
      (GoResult.ok (),
        [Event.getCapacity (str "rg") (str "web"),
          Event.listInstances (str "rg") (str "web"),
          Event.preDrain [str "web_1"] 1,
          Event.deleteInstances (str "rg") (str "web") [str "1"],
          Event.postDrain [str "zzz_9", str "web_1"]]) := by
  refine ⟨correlate_unknown_shard_skipped [str "web"] (fun _ => []) (str "zzz_9")
    [str "web_1"] (str "zzz") (str "9") (by decide) ?_, by decide⟩
  intro v hv
  rcases List.mem_singleton.mp hv with rfl
  decide
